import Mathlib

/-!
# hev-socks5-tunnel JNI lifecycle guard

A shallow embedding of `library/src/main/cpp/hev_socks5_tunnel_jni.c` (the C++
binding `hev_socks5_tunnel_jni.cpp` carries the same logic line for line).

Conventions of the embedding

* A C string (`char *`) is the list of its bytes before the terminating NUL.
* The process state the JNI layer touches is a `World`: the static flag
  `tunnel_running`, the process environment, the file system, and two traces
  recording the calls made into the engine (`hev_socks5_tunnel_main`,
  `hev_socks5_tunnel_stats`).
* The engine is an external collaborator: `Engine.hev_socks5_tunnel_main` maps
  what the engine can observe at the call (argc, argv, environment, files) to
  its exit code, and `Engine` carries the four counters the accessor stores.
* Outcomes the code tests are inputs of the model: `GetStringUTFChars`
  returning NULL, `NewLongArray` returning NULL, `mkstemp` failing, the byte count
  `write` reports, and `strdup` returning NULL (its result is what
  `writeConfigToTempFile` returns and the caller tests).  Calls whose result the
  code discards (`setenv`, `close`, `unlink`, logging) are modelled by their
  effect on success.
* `pthread_mutex_lock` / `pthread_mutex_unlock` pairs are balanced on every
  path; in a single call they delimit one atomic step.  The sequential
  functions below run one call to completion; the interleaving of several
  calls is the step machine `step` further down.
-/

namespace HevJni

/-- A C string: the bytes before the terminating NUL. -/
abbrev CStr := List UInt8

/-- A string literal of the source as a C string (ASCII). -/
def lit (s : String) : CStr := s.toList.map (fun c => UInt8.ofNat c.toNat)

/-- Association list keyed by C strings: the environment and the file system. -/
abbrev Table := List (CStr × CStr)

/-- Value bound to `k`, if any. -/
def Table.find (k : CStr) : Table → Option CStr
  | [] => none
  | (k', v) :: t => if k' = k then some v else Table.find k t

/-- Remove every binding of `k`. -/
def Table.remove (k : CStr) : Table → Table
  | [] => []
  | (k', v) :: t => if k' = k then Table.remove k t else (k', v) :: Table.remove k t

/-- Bind `k` to `v`, replacing an earlier binding. -/
def Table.put (k v : CStr) (t : Table) : Table := (k, v) :: Table.remove k t

/-- What the engine observes when `hev_socks5_tunnel_main` is entered. -/
structure MainCall where
  argc : Int
  argv : List (Option CStr)
  environ : Table
  files : Table
deriving DecidableEq

/-- The external engine: exit code of the blocking run, and the counters
`(tx_packets, tx_bytes, rx_packets, rx_bytes)` its accessor stores (`size_t`). -/
structure Engine where
  hev_socks5_tunnel_main : MainCall → Int
  tx_packets : Nat
  tx_bytes : Nat
  rx_packets : Nat
  rx_bytes : Nat

/-- Process state seen by the JNI layer. -/
structure World where
  tunnel_running : Int
  environ : Table
  files : Table
  main_calls : List MainCall
  stats_calls : Nat
deriving DecidableEq

/-- Name of the environment variable carrying the TUN descriptor. -/
def TUN_FD_ENV : CStr := lit "HEV_SOCKS5_TUNNEL_TUN_FD"

/-- C `setenv (name, value, overwrite)`. -/
def setenv (name value : CStr) (overwrite : Int) (env : Table) : Table :=
  match Table.find name env with
  | some _ => if overwrite ≠ 0 then Table.put name value env else env
  | none => Table.put name value env

/-- C `getenv`. -/
def getenv (name : CStr) (env : Table) : Option CStr := Table.find name env

/-- C `unlink`. -/
def unlink (path : CStr) (fs : Table) : Table := Table.remove path fs

/-- Outcomes of the JNI calls made through `JNIEnv *env` during one native call. -/
structure JNIEnv where
  GetStringUTFChars_ok : Bool
  NewLongArray_ok : Bool

/-- Outcomes of the libc calls whose result the code tests: the six characters
`mkstemp` puts in place of `XXXXXX` (`none`: it returns a negative descriptor),
the count `write` reports, and whether `strdup` returns a copy or NULL. -/
structure Libc where
  mkstemp : Option CStr
  write : Int
  strdup_ok : Bool

/-- C `strdup`: a copy of the string, or NULL. -/
def strdup (os : Libc) (s : CStr) : Option CStr :=
  if os.strdup_ok then some s else none

/-- JNI `GetStringUTFChars`: the modified UTF-8 bytes of the string, or NULL.
A Java string is modelled by these bytes (modified UTF-8 has no zero byte, so
they are a C string whose `strlen` is `GetStringUTFLength`). -/
def GetStringUTFChars (env : JNIEnv) (s : CStr) : Option CStr :=
  if env.GetStringUTFChars_ok then some s else none

/-- JNI `GetStringUTFLength`: byte length of the modified UTF-8 encoding. -/
def GetStringUTFLength (s : CStr) : Nat := s.length

/-- C `mkstemp`: the trailing `XXXXXX` of the template is replaced and the file
is created empty with `O_EXCL`, so a name already in use is never opened.  The
descriptor is modelled by the path of the open file. -/
def mkstemp (os : Libc) (template : CStr) (fs : Table) : Option CStr × Table :=
  match os.mkstemp with
  | none => (none, fs)
  | some sfx =>
    let path := template.take (template.length - 6) ++ sfx
    match Table.find path fs with
    | some _ => (none, fs)
    | none => (some path, Table.put path [] fs)

/-- C `write (fd, buf, count)` on a freshly created file: the reported count,
and the file holding that many leading bytes of the buffer. -/
def write (os : Libc) (fd : CStr) (buf : CStr) (count : Nat) (fs : Table) : Int × Table :=
  (os.write,
   if 0 < os.write then Table.put fd ((buf.take count).take os.write.toNat) fs else fs)

/-- Digits of `n` in base ten, least significant first: the conversion loop of
`printf`, `do { *--p = 48 + n % 10; n /= 10; } while (n);`. -/
def utoa_rev : Nat → Nat → List UInt8
  | 0, _ => []
  | fuel + 1, n =>
    UInt8.ofNat (48 + n % 10) :: (if n / 10 = 0 then [] else utoa_rev fuel (n / 10))

/-- Output of the `printf` conversion `%d`. -/
def fmt_d (n : Int) : CStr :=
  (if n < 0 then [45] else []) ++ (utoa_rev (n.natAbs + 1) n.natAbs).reverse

/-- C `snprintf (buf, size, "%d", n)`: at most `size - 1` bytes are stored. -/
def snprintf_d (size : Nat) (n : Int) : CStr := (fmt_d n).take (size - 1)

/-- Call into the engine: the call is recorded and the exit code returned. -/
def call_main (eng : Engine) (argc : Int) (argv : List (Option CStr)) (w : World) :
    Int × World :=
  let c : MainCall := ⟨argc, argv, w.environ, w.files⟩
  (eng.hev_socks5_tunnel_main c, { w with main_calls := w.main_calls ++ [c] })

/-- The test of the flag under the lock, `if (tunnel_running) ... return -1;
tunnel_running = 1;`: `none` when the flag is set, else the value stored. -/
def test_and_set (flag : Int) : Option Int :=
  if flag ≠ 0 then none else some 1

/-- The guard at the top of both start functions (lines 99-106 and 154-161):
under `tunnel_mutex`, a set flag rejects the call (`none`), a clear flag is set. -/
def start_guard (w : World) : Option World :=
  (test_and_set w.tunnel_running).map (fun f => { w with tunnel_running := f })

def arg0 : CStr := lit "hev-socks5-tunnel"

def arg1 : CStr := lit "-c"

/-- The `mkstemp` template of `writeConfigToTempFile`. -/
def tmpFile : CStr := lit "/data/local/tmp/hev-socks5-tunnel-XXXXXX"

/-- C `writeConfigToTempFile`: the path of the written file, or NULL.  The value
`fd` stands for both the open descriptor and the array `tmpFile` after `mkstemp`
has filled it in.  The last line is `result = strdup (tmpFile); return result;`:
when `strdup` returns NULL the function returns NULL and the file stays. -/
def writeConfigToTempFile (os : Libc) (config : CStr) (config_len : Nat) (fs : Table) :
    Option CStr × Table :=
  match mkstemp os tmpFile fs with
  | (none, fs1) => (none, fs1)
  | (some fd, fs1) =>
    let (written, fs2) := write os fd config config_len fs1
    if written ≠ (config_len : Int) then (none, unlink fd fs2)
    else (strdup os fd, fs2)

/-- JNI entry `nativeStart (configPath, tunFd)`. -/
def nativeStart (eng : Engine) (env : JNIEnv) (configPath : CStr) (tunFd : Int)
    (w : World) : Int × World :=
  match start_guard w with
  | none => (-1, w)
  | some w1 =>
    match GetStringUTFChars env configPath with
    | none => (-1, { w1 with tunnel_running := 0 })
    | some configPathStr =>
      let argv := [some arg0, some arg1, some configPathStr, none]
      let tunFdEnv := snprintf_d 32 tunFd
      let w2 := { w1 with environ := setenv TUN_FD_ENV tunFdEnv 1 w1.environ }
      let (result, w3) := call_main eng 3 argv w2
      (result, { w3 with tunnel_running := 0 })

/-- JNI entry `nativeStartFromString (configYaml, tunFd)`. -/
def nativeStartFromString (eng : Engine) (env : JNIEnv) (os : Libc) (configYaml : CStr)
    (tunFd : Int) (w : World) : Int × World :=
  match start_guard w with
  | none => (-1, w)
  | some w1 =>
    match GetStringUTFChars env configYaml with
    | none => (-1, { w1 with tunnel_running := 0 })
    | some configStr =>
      let config_len := GetStringUTFLength configYaml
      match writeConfigToTempFile os configStr config_len w1.files with
      | (none, fs1) => (-1, { w1 with files := fs1, tunnel_running := 0 })
      | (some tempFile, fs1) =>
        let argv := [some arg0, some arg1, some tempFile, none]
        let tunFdEnv := snprintf_d 32 tunFd
        let w2 := { w1 with files := fs1,
                            environ := setenv TUN_FD_ENV tunFdEnv 1 w1.environ }
        let (result, w3) := call_main eng 3 argv w2
        let w4 := { w3 with files := unlink tempFile w3.files }
        (result, { w4 with tunnel_running := 0 })

/-- The cast `(jlong) c` of a `size_t` value: the 64-bit pattern read as a signed
integer.  (With a 32-bit `size_t` the value is below `2 ^ 32` and is kept.) -/
def to_jlong (c : Nat) : Int :=
  if c % 2 ^ 64 < 2 ^ 63 then ((c % 2 ^ 64 : Nat) : Int) else ((c % 2 ^ 64 : Nat) : Int) - 2 ^ 64

/-- Engine accessor `hev_socks5_tunnel_stats`: the call is counted and the four
`size_t` out-parameters `(tx_packets, tx_bytes, rx_packets, rx_bytes)` stored. -/
def hev_socks5_tunnel_stats (eng : Engine) (w : World) : (Nat × Nat × Nat × Nat) × World :=
  ((eng.tx_packets % 2 ^ 64, eng.tx_bytes % 2 ^ 64, eng.rx_packets % 2 ^ 64,
    eng.rx_bytes % 2 ^ 64), { w with stats_calls := w.stats_calls + 1 })

/-- JNI entry `nativeGetStats`: the `long[4]` handed back, or NULL. -/
def nativeGetStats (eng : Engine) (env : JNIEnv) (w : World) : Option (List Int) × World :=
  let ((tx_packets, tx_bytes, rx_packets, rx_bytes), w1) :=
    if w.tunnel_running ≠ 0 then hev_socks5_tunnel_stats eng w else ((0, 0, 0, 0), w)
  if env.NewLongArray_ok then
    (some [to_jlong tx_bytes, to_jlong rx_bytes, to_jlong tx_packets, to_jlong rx_packets], w1)
  else (none, w1)

/-! ## Interleaved start calls

Several threads each run one start call (`nativeStart` or
`nativeStartFromString`; they touch `tunnel_running` at the same places).  A
step is what one thread does between two accesses to the flag; the
`lock / test / set / unlock` sequence at the top is a single step. -/

/-- Where a start call stands. -/
inductive Pc where
  /-- Called, not yet past the guard at the top. -/
  | entry
  /-- Past the guard: this call has set the flag; its config is not yet obtained. -/
  | guarded
  /-- Inside `hev_socks5_tunnel_main`. -/
  | engine
  /-- The engine has returned `code`; the final `tunnel_running = 0` is pending. -/
  | leaving (code : Int)
  /-- Returned `code` to the caller. -/
  | returned (code : Int)
deriving DecidableEq

/-- The call is between its successful set of the flag and its clearing of it. -/
def Pc.holds : Pc → Bool
  | .guarded => true
  | .engine => true
  | .leaving _ => true
  | _ => false

/-- What the surroundings decide for one step: whether the config is obtained
(string extracted, scratch file written), and the engine's exit code. -/
structure Outcome where
  config_ok : Bool
  exit_code : Int

/-- The flag and the position of every thread. -/
structure Sys where
  tunnel_running : Int
  pc : Nat → Pc

/-- All threads at the entry of their start call, flag clear (load-time state). -/
def Sys.init : Sys := ⟨0, fun _ => Pc.entry⟩

/-- One step of thread `t`.
* `entry`: lines 99-106 / 154-161, the guard; rejected calls return -1.
* `guarded`: lines 108-126 / 163-194; a failed string extraction or scratch
  file write stores `tunnel_running = 0` and returns -1 (lines 111, 166, 181),
  otherwise the engine is entered (line 128 / 196).
* `engine`: `hev_socks5_tunnel_main` returns `exit_code`.
* `leaving`: lines 130-137 / 199-207, the flag is cleared and the code returned. -/
def step (t : Nat) (o : Outcome) (s : Sys) : Sys :=
  match s.pc t with
  | .entry =>
    match test_and_set s.tunnel_running with
    | none => { s with pc := Function.update s.pc t (.returned (-1)) }
    | some f => { tunnel_running := f, pc := Function.update s.pc t .guarded }
  | .guarded =>
    if o.config_ok then { s with pc := Function.update s.pc t .engine }
    else { tunnel_running := 0, pc := Function.update s.pc t (.returned (-1)) }
  | .engine => { s with pc := Function.update s.pc t (.leaving o.exit_code) }
  | .leaving r => { tunnel_running := 0, pc := Function.update s.pc t (.returned r) }
  | .returned _ => s

/-- Run a schedule: the listed threads take their steps in order. -/
def run (sched : List (Nat × Outcome)) (s : Sys) : Sys :=
  sched.foldl (fun s x => step x.1 x.2 s) s

/-! ## Decimal strings, as the specification words them -/

/-- Number denoted by a string of decimal digits, most significant first. -/
def decimal_value (s : CStr) : Nat :=
  s.foldl (fun acc b => 10 * acc + (b.toNat - 48)) 0

/-- A non-empty run of the characters `0`..`9` without a leading zero (the
one-character string `0` apart). -/
def IsDigits (ds : CStr) : Prop :=
  ds ≠ [] ∧ (∀ b ∈ ds, 48 ≤ b.toNat ∧ b.toNat ≤ 57) ∧ (ds.head? = some 48 → ds = [48])

/-- The string `s` is the canonical decimal string of `n`: a leading `-` exactly
when `n` is negative, then the digits of the magnitude of `n` without leading
zeros, and nothing before or after. -/
def IsDecimalOf (s : CStr) (n : Int) : Prop :=
  if n < 0 then s.head? = some 45 ∧ IsDigits s.tail ∧ decimal_value s.tail = n.natAbs
  else IsDigits s ∧ decimal_value s = n.natAbs

/-! ## Concrete inputs used to evaluate the model -/

/-- An engine whose run exits with code 7 and whose counters are 1, 2, 3, 4. -/
def engine7 : Engine := ⟨fun _ => 7, 1, 2, 3, 4⟩

/-- An engine whose transmitted byte counter has reached `2 ^ 63`. -/
def engineBig : Engine := ⟨fun _ => 0, 1, 2 ^ 63, 3, 4⟩

/-- Every JNI call succeeds. -/
def jniOk : JNIEnv := ⟨true, true⟩

/-- `NewLongArray` returns NULL. -/
def jniNoArray : JNIEnv := ⟨true, false⟩

/-- Load-time state: flag clear, nothing else present. -/
def worldIdle : World := ⟨0, [], [], [], 0⟩

/-- State while a tunnel runs: flag set, descriptor 7 exported earlier. -/
def worldRunning : World := ⟨1, [(TUN_FD_ENV, lit "7")], [], [], 0⟩

/-- A `mkstemp` that picks the name ending in `abcdef` and a `write` reporting 3 bytes. -/
def libc3 : Libc := ⟨some (lit "abcdef"), 3, true⟩

/-- A `mkstemp` that picks the name ending in `abcdef` and a `write` reporting 2 bytes. -/
def libc2 : Libc := ⟨some (lit "abcdef"), 2, true⟩


/-! ## Lifecycle guard -/

theorem start_guard_idle (w : World) (h : w.tunnel_running = 0) :
    start_guard w = some { w with tunnel_running := 1 } := by
  simp [start_guard, test_and_set, h]

theorem start_guard_running (w : World) (h : w.tunnel_running ≠ 0) :
    start_guard w = none := by
  simp [start_guard, test_and_set, h]

/-- C1: when `tunnel_running` is already set, `nativeStart` and
`nativeStartFromString` both return -1 and hand back the state they were given:
flag, environment, files and the trace of engine calls are all unchanged. -/
theorem start_when_running_is_rejected (eng : Engine) (env : JNIEnv) (os : Libc)
    (configPath configYaml : CStr) (tunFd : Int) (w : World)
    (h : w.tunnel_running ≠ 0) :
    nativeStart eng env configPath tunFd w = (-1, w) ∧
    nativeStartFromString eng env os configYaml tunFd w = (-1, w) := by
  simp [nativeStart, nativeStartFromString, start_guard, test_and_set, h]

theorem start_when_running_is_rejected_witness :
    worldRunning.tunnel_running ≠ 0 ∧
    nativeStart engine7 jniOk (lit "/sdcard/t.yml") 42 worldRunning = (-1, worldRunning) ∧
    nativeStartFromString engine7 jniOk libc3 (lit "abc") 42 worldRunning
      = (-1, worldRunning) :=
  ⟨by decide,
   start_when_running_is_rejected engine7 jniOk libc3 (lit "/sdcard/t.yml") (lit "abc") 42
     worldRunning (by decide)⟩

/-- C2 as stated fails: a start that returns the already-running rejection
leaves `tunnel_running` set, and the start that follows is rejected as well. -/
theorem state_reversion_fails_after_rejection :
    (nativeStart engine7 jniOk (lit "/sdcard/t.yml") 42 worldRunning).1 = -1 ∧
    (nativeStart engine7 jniOk (lit "/sdcard/t.yml") 42 worldRunning).2.tunnel_running = 1 ∧
    start_guard (nativeStart engine7 jniOk (lit "/sdcard/t.yml") 42 worldRunning).2 = none ∧
    (nativeStartFromString engine7 jniOk libc3 (lit "abc") 42 worldRunning).2.tunnel_running
      = 1 ∧
    start_guard (nativeStartFromString engine7 jniOk libc3 (lit "abc") 42 worldRunning).2
      = none := by
  decide

/-- C2 (amended): a start call entered with `tunnel_running` clear always leaves
the flag clear when it returns, whichever way it returns (engine exit code,
string extraction failure, scratch file failure), and the next start passes the
guard: it is not rejected, and with its string extracted it runs the engine. -/
theorem state_reverts_after_accepted_start (eng : Engine) (env : JNIEnv) (os : Libc)
    (configPath configYaml : CStr) (tunFd : Int) (w : World)
    (h : w.tunnel_running = 0) :
    (nativeStart eng env configPath tunFd w).2.tunnel_running = 0 ∧
    (start_guard (nativeStart eng env configPath tunFd w).2).isSome = true ∧
    (nativeStartFromString eng env os configYaml tunFd w).2.tunnel_running = 0 ∧
    (start_guard (nativeStartFromString eng env os configYaml tunFd w).2).isSome = true ∧
    (∀ (eng2 : Engine) (env2 : JNIEnv) (p2 : CStr) (fd2 : Int),
      env2.GetStringUTFChars_ok = true →
      (nativeStart eng2 env2 p2 fd2 (nativeStart eng env configPath tunFd w).2).2.main_calls.length
        = (nativeStart eng env configPath tunFd w).2.main_calls.length + 1 ∧
      (nativeStart eng2 env2 p2 fd2
          (nativeStartFromString eng env os configYaml tunFd w).2).2.main_calls.length
        = (nativeStartFromString eng env os configYaml tunFd w).2.main_calls.length + 1) := by
  have a1 : (nativeStart eng env configPath tunFd w).2.tunnel_running = 0 := by
    simp only [nativeStart, start_guard, test_and_set, h, GetStringUTFChars, call_main]
    cases env.GetStringUTFChars_ok <;> simp
  have a2 : (nativeStartFromString eng env os configYaml tunFd w).2.tunnel_running = 0 := by
    simp only [nativeStartFromString, start_guard_idle w h, GetStringUTFChars, call_main]
    cases env.GetStringUTFChars_ok
    · simp
    · simp only [ite_true]
      split <;> simp
  have run : ∀ (eng2 : Engine) (env2 : JNIEnv) (p2 : CStr) (fd2 : Int) (s : World),
      s.tunnel_running = 0 → env2.GetStringUTFChars_ok = true →
      (nativeStart eng2 env2 p2 fd2 s).2.main_calls.length = s.main_calls.length + 1 := by
    intro eng2 env2 p2 fd2 s hs hok
    simp [nativeStart, start_guard, test_and_set, hs, GetStringUTFChars, hok, call_main]
  refine ⟨a1, by simp [start_guard, test_and_set, a1], a2, by simp [start_guard, test_and_set, a2], ?_⟩
  intro eng2 env2 p2 fd2 hok
  exact ⟨run eng2 env2 p2 fd2 _ a1 hok, run eng2 env2 p2 fd2 _ a2 hok⟩

theorem state_reverts_after_accepted_start_witness :
    worldIdle.tunnel_running = 0 ∧
    ((nativeStart engine7 jniOk (lit "/sdcard/t.yml") 42 worldIdle).2.tunnel_running = 0 ∧
    (start_guard (nativeStart engine7 jniOk (lit "/sdcard/t.yml") 42 worldIdle).2).isSome
      = true ∧
    (nativeStartFromString engine7 jniOk libc2 (lit "abc") 42 worldIdle).2.tunnel_running
      = 0 ∧
    (start_guard
      (nativeStartFromString engine7 jniOk libc2 (lit "abc") 42 worldIdle).2).isSome = true ∧
    (∀ (eng2 : Engine) (env2 : JNIEnv) (p2 : CStr) (fd2 : Int),
      env2.GetStringUTFChars_ok = true →
      (nativeStart eng2 env2 p2 fd2
          (nativeStart engine7 jniOk (lit "/sdcard/t.yml") 42 worldIdle).2).2.main_calls.length
        = (nativeStart engine7 jniOk (lit "/sdcard/t.yml") 42 worldIdle).2.main_calls.length + 1 ∧
      (nativeStart eng2 env2 p2 fd2
          (nativeStartFromString engine7 jniOk libc2 (lit "abc") 42
            worldIdle).2).2.main_calls.length
        = (nativeStartFromString engine7 jniOk libc2 (lit "abc") 42
            worldIdle).2.main_calls.length + 1)) :=
  ⟨by decide,
   state_reverts_after_accepted_start engine7 jniOk libc2 (lit "/sdcard/t.yml") (lit "abc") 42
      worldIdle (by decide)⟩

/-! ## Traffic counters -/

theorem to_jlong_of_lt (c : Nat) (h : c < 2 ^ 63) : to_jlong c = (c : Int) := by
  have e : c % 2 ^ 64 = c := Nat.mod_eq_of_lt (by omega)
  unfold to_jlong
  rw [e, if_pos h]

theorem to_jlong_of_ge (c : Nat) (h : 2 ^ 63 ≤ c) (h64 : c < 2 ^ 64) :
    to_jlong c = (c : Int) - 2 ^ 64 := by
  have e : c % 2 ^ 64 = c := Nat.mod_eq_of_lt h64
  unfold to_jlong
  rw [e, if_neg (by omega)]

theorem to_jlong_cases (c : Nat) (h64 : c < 2 ^ 64) :
    to_jlong c = (if c < 2 ^ 63 then (c : Int) else (c : Int) - 2 ^ 64) := by
  by_cases h : c < 2 ^ 63
  · rw [if_pos h, to_jlong_of_lt c h]
  · rw [if_neg h, to_jlong_of_ge c (by omega) h64]

theorem to_jlong_eq_iff (c : Nat) (h64 : c < 2 ^ 64) : to_jlong c = (c : Int) ↔ c < 2 ^ 63 := by
  constructor
  · intro h
    by_contra hn
    rw [to_jlong_of_ge c (by omega) h64] at h
    omega
  · exact to_jlong_of_lt c

theorem to_jlong_nonneg_iff (c : Nat) (h64 : c < 2 ^ 64) : 0 ≤ to_jlong c ↔ c < 2 ^ 63 := by
  constructor
  · intro h
    by_contra hn
    rw [to_jlong_of_ge c (by omega) h64] at h
    omega
  · intro h
    rw [to_jlong_of_lt c h]
    omega

theorem nativeGetStats_running (eng : Engine) (env : JNIEnv) (w : World)
    (hrun : w.tunnel_running ≠ 0) (halloc : env.NewLongArray_ok = true)
    (ha : eng.tx_packets < 2 ^ 64) (hb : eng.tx_bytes < 2 ^ 64)
    (hc : eng.rx_packets < 2 ^ 64) (hd : eng.rx_bytes < 2 ^ 64) :
    nativeGetStats eng env w
      = (some [to_jlong eng.tx_bytes, to_jlong eng.rx_bytes,
               to_jlong eng.tx_packets, to_jlong eng.rx_packets],
         { w with stats_calls := w.stats_calls + 1 }) := by
  simp only [nativeGetStats, hev_socks5_tunnel_stats, if_pos hrun, halloc, if_true,
    Nat.mod_eq_of_lt ha, Nat.mod_eq_of_lt hb, Nat.mod_eq_of_lt hc, Nat.mod_eq_of_lt hd]

/-- C4: with `tunnel_running` clear and the result array allocated,
`nativeGetStats` returns `[0, 0, 0, 0]` and leaves the state as it was, the
count of `hev_socks5_tunnel_stats` calls included, whatever the engine holds. -/
theorem idle_stats_are_zero (eng : Engine) (env : JNIEnv) (w : World)
    (hidle : w.tunnel_running = 0) (halloc : env.NewLongArray_ok = true) :
    nativeGetStats eng env w = (some [0, 0, 0, 0], w) := by
  simp [nativeGetStats, hidle, halloc, to_jlong]

theorem idle_stats_are_zero_witness :
    worldIdle.tunnel_running = 0 ∧ jniOk.NewLongArray_ok = true ∧
    nativeGetStats engineBig jniOk worldIdle = (some [0, 0, 0, 0], worldIdle) :=
  ⟨by decide, by decide, idle_stats_are_zero engineBig jniOk worldIdle (by decide) (by decide)⟩

/-- C5 as stated fails: with the flag set and the engine reporting
`tx_bytes = 2 ^ 63` the first element returned is `-2 ^ 63`, not the reported
value; and when `NewLongArray` fails no array is returned at all. -/
theorem running_stats_not_always_reported_values :
    (nativeGetStats engineBig jniOk worldRunning).1
      = some [-9223372036854775808, 4, 1, 3] ∧
    (nativeGetStats engineBig jniOk worldRunning).1
      ≠ some [(engineBig.tx_bytes : Int), (engineBig.rx_bytes : Int),
              (engineBig.tx_packets : Int), (engineBig.rx_packets : Int)] ∧
    (nativeGetStats engine7 jniNoArray worldRunning).1 = none := by
  decide

/-- C5 (amended): with the flag set, the result array allocated and the engine
reporting `size_t` counters, `nativeGetStats` calls the accessor once and
returns `[tx_bytes, rx_bytes, tx_packets, rx_packets]`, each converted to
`jlong`; when every counter is below `2 ^ 63` these are exactly the reported
values. -/
theorem running_stats_order (eng : Engine) (env : JNIEnv) (w : World)
    (hrun : w.tunnel_running ≠ 0) (halloc : env.NewLongArray_ok = true)
    (ha : eng.tx_packets < 2 ^ 64) (hb : eng.tx_bytes < 2 ^ 64)
    (hc : eng.rx_packets < 2 ^ 64) (hd : eng.rx_bytes < 2 ^ 64) :
    nativeGetStats eng env w
      = (some [to_jlong eng.tx_bytes, to_jlong eng.rx_bytes,
               to_jlong eng.tx_packets, to_jlong eng.rx_packets],
         { w with stats_calls := w.stats_calls + 1 }) ∧
    (eng.tx_packets < 2 ^ 63 → eng.tx_bytes < 2 ^ 63 →
     eng.rx_packets < 2 ^ 63 → eng.rx_bytes < 2 ^ 63 →
      (nativeGetStats eng env w).1
        = some [(eng.tx_bytes : Int), (eng.rx_bytes : Int),
                (eng.tx_packets : Int), (eng.rx_packets : Int)]) := by
  have e := nativeGetStats_running eng env w hrun halloc ha hb hc hd
  refine ⟨e, ?_⟩
  intro ha2 hb2 hc2 hd2
  rw [e, to_jlong_of_lt _ ha2, to_jlong_of_lt _ hb2, to_jlong_of_lt _ hc2, to_jlong_of_lt _ hd2]

theorem running_stats_order_witness :
    worldRunning.tunnel_running ≠ 0 ∧ jniOk.NewLongArray_ok = true ∧
    (nativeGetStats engine7 jniOk worldRunning).1 = some [2, 4, 1, 3] :=
  ⟨by decide, by decide,
   (running_stats_order engine7 jniOk worldRunning (by decide) (by decide) (by decide)
      (by decide) (by decide) (by decide)).2 (by decide) (by decide) (by decide) (by decide)⟩

/-- C10: with the flag set and the array allocated, each element returned by
`nativeGetStats` is the engine's unsigned 64-bit counter read as a signed
64-bit integer: `c` itself below `2 ^ 63`, `c - 2 ^ 64` from `2 ^ 63` on.  Hence
the elements equal the counters exactly when all four counters are below
`2 ^ 63`, and exactly then all elements are non-negative. -/
theorem counters_read_as_signed (eng : Engine) (env : JNIEnv) (w : World)
    (hrun : w.tunnel_running ≠ 0) (halloc : env.NewLongArray_ok = true)
    (ha : eng.tx_packets < 2 ^ 64) (hb : eng.tx_bytes < 2 ^ 64)
    (hc : eng.rx_packets < 2 ^ 64) (hd : eng.rx_bytes < 2 ^ 64) :
    ∃ s0 s1 s2 s3 : Int,
      (nativeGetStats eng env w).1 = some [s0, s1, s2, s3] ∧
      s0 = (if eng.tx_bytes < 2 ^ 63 then (eng.tx_bytes : Int)
            else (eng.tx_bytes : Int) - 2 ^ 64) ∧
      s1 = (if eng.rx_bytes < 2 ^ 63 then (eng.rx_bytes : Int)
            else (eng.rx_bytes : Int) - 2 ^ 64) ∧
      s2 = (if eng.tx_packets < 2 ^ 63 then (eng.tx_packets : Int)
            else (eng.tx_packets : Int) - 2 ^ 64) ∧
      s3 = (if eng.rx_packets < 2 ^ 63 then (eng.rx_packets : Int)
            else (eng.rx_packets : Int) - 2 ^ 64) ∧
      ((s0 = eng.tx_bytes ∧ s1 = eng.rx_bytes ∧ s2 = eng.tx_packets ∧ s3 = eng.rx_packets)
        ↔ (eng.tx_bytes < 2 ^ 63 ∧ eng.rx_bytes < 2 ^ 63 ∧
           eng.tx_packets < 2 ^ 63 ∧ eng.rx_packets < 2 ^ 63)) ∧
      ((0 ≤ s0 ∧ 0 ≤ s1 ∧ 0 ≤ s2 ∧ 0 ≤ s3)
        ↔ (eng.tx_bytes < 2 ^ 63 ∧ eng.rx_bytes < 2 ^ 63 ∧
           eng.tx_packets < 2 ^ 63 ∧ eng.rx_packets < 2 ^ 63)) := by
  refine ⟨to_jlong eng.tx_bytes, to_jlong eng.rx_bytes, to_jlong eng.tx_packets,
    to_jlong eng.rx_packets, ?_, to_jlong_cases _ hb, to_jlong_cases _ hd, to_jlong_cases _ ha,
    to_jlong_cases _ hc, ?_, ?_⟩
  · rw [nativeGetStats_running eng env w hrun halloc ha hb hc hd]
  · rw [to_jlong_eq_iff _ hb, to_jlong_eq_iff _ hd, to_jlong_eq_iff _ ha, to_jlong_eq_iff _ hc]
  · rw [to_jlong_nonneg_iff _ hb, to_jlong_nonneg_iff _ hd, to_jlong_nonneg_iff _ ha,
      to_jlong_nonneg_iff _ hc]

theorem counters_read_as_signed_witness :
    worldRunning.tunnel_running ≠ 0 ∧ jniOk.NewLongArray_ok = true ∧
    engineBig.tx_packets < 2 ^ 64 ∧ engineBig.tx_bytes < 2 ^ 64 ∧
    engineBig.rx_packets < 2 ^ 64 ∧ engineBig.rx_bytes < 2 ^ 64 ∧
    ∃ s0 s1 s2 s3 : Int,
      (nativeGetStats engineBig jniOk worldRunning).1 = some [s0, s1, s2, s3] ∧
      s0 = (if engineBig.tx_bytes < 2 ^ 63 then (engineBig.tx_bytes : Int)
            else (engineBig.tx_bytes : Int) - 2 ^ 64) ∧
      s1 = (if engineBig.rx_bytes < 2 ^ 63 then (engineBig.rx_bytes : Int)
            else (engineBig.rx_bytes : Int) - 2 ^ 64) ∧
      s2 = (if engineBig.tx_packets < 2 ^ 63 then (engineBig.tx_packets : Int)
            else (engineBig.tx_packets : Int) - 2 ^ 64) ∧
      s3 = (if engineBig.rx_packets < 2 ^ 63 then (engineBig.rx_packets : Int)
            else (engineBig.rx_packets : Int) - 2 ^ 64) ∧
      ((s0 = engineBig.tx_bytes ∧ s1 = engineBig.rx_bytes ∧ s2 = engineBig.tx_packets ∧
          s3 = engineBig.rx_packets)
        ↔ (engineBig.tx_bytes < 2 ^ 63 ∧ engineBig.rx_bytes < 2 ^ 63 ∧
           engineBig.tx_packets < 2 ^ 63 ∧ engineBig.rx_packets < 2 ^ 63)) ∧
      ((0 ≤ s0 ∧ 0 ≤ s1 ∧ 0 ≤ s2 ∧ 0 ≤ s3)
        ↔ (engineBig.tx_bytes < 2 ^ 63 ∧ engineBig.rx_bytes < 2 ^ 63 ∧
           engineBig.tx_packets < 2 ^ 63 ∧ engineBig.rx_packets < 2 ^ 63)) :=
  ⟨by decide, by decide, by decide, by decide, by decide, by decide,
   counters_read_as_signed engineBig jniOk worldRunning (by decide) (by decide) (by decide)
     (by decide) (by decide) (by decide)⟩

/-! ## Tables -/

theorem Table.find_remove_self (k : CStr) (t : Table) :
    Table.find k (Table.remove k t) = none := by
  induction t with
  | nil => rfl
  | cons kv t ih =>
    obtain ⟨k1, v⟩ := kv
    by_cases h : k1 = k
    · simp [Table.remove, h, ih]
    · simp [Table.remove, Table.find, h, ih]

theorem Table.find_put_self (k v : CStr) (t : Table) :
    Table.find k (Table.put k v t) = some v := by
  simp [Table.put, Table.find]

theorem Table.remove_of_find_none (k : CStr) (t : Table) (h : Table.find k t = none) :
    Table.remove k t = t := by
  induction t with
  | nil => rfl
  | cons kv t ih =>
    obtain ⟨k1, v⟩ := kv
    by_cases hk : k1 = k
    · simp [Table.find, hk] at h
    · simp only [Table.find, if_neg hk] at h
      simp [Table.remove, hk, ih h]

theorem Table.remove_remove (k : CStr) (t : Table) :
    Table.remove k (Table.remove k t) = Table.remove k t :=
  Table.remove_of_find_none k _ (Table.find_remove_self k t)

theorem Table.remove_put (k v : CStr) (t : Table) :
    Table.remove k (Table.put k v t) = Table.remove k t := by
  simp [Table.put, Table.remove, Table.remove_remove]

theorem getenv_setenv (name value : CStr) (env : Table) :
    getenv name (setenv name value 1 env) = some value := by
  unfold getenv setenv
  cases Table.find name env <;> simp [Table.find_put_self]

/-! ## Scratch file -/

/-- Every outcome of `mkstemp`: failure with the files untouched, or a name that
was free, now bound to the empty file. -/
theorem mkstemp_cases (os : Libc) (template : CStr) (fs : Table) :
    mkstemp os template fs = (none, fs) ∨
    ∃ path, Table.find path fs = none ∧
      mkstemp os template fs = (some path, Table.put path [] fs) := by
  unfold mkstemp
  cases os.mkstemp with
  | none => exact Or.inl rfl
  | some sfx =>
    simp only
    cases h : Table.find (List.take (template.length - 6) template ++ sfx) fs with
    | none => exact Or.inr ⟨_, h, rfl⟩
    | some _ => exact Or.inl rfl

theorem writeConfigToTempFile_fail (os : Libc) (config : CStr) (fs : Table)
    (hfail : (mkstemp os tmpFile fs).1 = none ∨ os.write ≠ (config.length : Int)) :
    writeConfigToTempFile os config config.length fs = (none, fs) := by
  rcases mkstemp_cases os tmpFile fs with h | ⟨p, hp, h⟩
  · simp [writeConfigToTempFile, h]
  · rcases hfail with hmk | hwr
    · rw [h] at hmk; cases hmk
    · simp only [writeConfigToTempFile, h, write, ne_eq, hwr, not_false_eq_true, if_true, unlink]
      split
      · rw [Table.remove_put, Table.remove_put, Table.remove_of_find_none p fs hp]
      · rw [Table.remove_put, Table.remove_of_find_none p fs hp]

theorem World.clear_flag_of_idle (w : World) (h : w.tunnel_running = 0) :
    ({ w with tunnel_running := 0 } : World) = w := by
  cases w
  simp_all


theorem nativeStart_accepted (eng : Engine) (env : JNIEnv) (configPath : CStr) (tunFd : Int)
    (w : World) (hidle : w.tunnel_running = 0) (hok : env.GetStringUTFChars_ok = true) :
    nativeStart eng env configPath tunFd w
      = (eng.hev_socks5_tunnel_main
           ⟨3, [some arg0, some arg1, some configPath, none],
            setenv TUN_FD_ENV (snprintf_d 32 tunFd) 1 w.environ, w.files⟩,
         { w with
           environ := setenv TUN_FD_ENV (snprintf_d 32 tunFd) 1 w.environ,
           main_calls := w.main_calls ++
             [⟨3, [some arg0, some arg1, some configPath, none],
               setenv TUN_FD_ENV (snprintf_d 32 tunFd) 1 w.environ, w.files⟩] }) := by
  cases w
  simp_all [nativeStart, start_guard, test_and_set, GetStringUTFChars, call_main]

theorem nativeStartFromString_with_file (eng : Engine) (env : JNIEnv) (os : Libc)
    (configYaml : CStr) (tunFd : Int) (w : World) (path : CStr) (fs1 : Table)
    (hidle : w.tunnel_running = 0) (hok : env.GetStringUTFChars_ok = true)
    (hres : writeConfigToTempFile os configYaml (GetStringUTFLength configYaml) w.files
      = (some path, fs1)) :
    nativeStartFromString eng env os configYaml tunFd w
      = (eng.hev_socks5_tunnel_main
           ⟨3, [some arg0, some arg1, some path, none],
            setenv TUN_FD_ENV (snprintf_d 32 tunFd) 1 w.environ, fs1⟩,
         { tunnel_running := 0,
           environ := setenv TUN_FD_ENV (snprintf_d 32 tunFd) 1 w.environ,
           files := unlink path fs1,
           main_calls := w.main_calls ++
             [⟨3, [some arg0, some arg1, some path, none],
               setenv TUN_FD_ENV (snprintf_d 32 tunFd) 1 w.environ, fs1⟩],
           stats_calls := w.stats_calls }) := by
  simp [nativeStartFromString, start_guard_idle w hidle, GetStringUTFChars, hok, hres,
    call_main]

theorem nativeStartFromString_null_file (eng : Engine) (env : JNIEnv) (os : Libc)
    (configYaml : CStr) (tunFd : Int) (w : World) (fs1 : Table)
    (hidle : w.tunnel_running = 0) (hok : env.GetStringUTFChars_ok = true)
    (hres : writeConfigToTempFile os configYaml (GetStringUTFLength configYaml) w.files
      = (none, fs1)) :
    nativeStartFromString eng env os configYaml tunFd w
      = (-1, { w with files := fs1, tunnel_running := 0 }) := by
  simp [nativeStartFromString, start_guard_idle w hidle, GetStringUTFChars, hok, hres]

theorem nativeStartFromString_no_file (eng : Engine) (env : JNIEnv) (os : Libc)
    (configYaml : CStr) (tunFd : Int) (w : World)
    (hfail : (mkstemp os tmpFile w.files).1 = none ∨ os.write ≠ (configYaml.length : Int)) :
    nativeStartFromString eng env os configYaml tunFd w = (-1, w) := by
  have hfile := writeConfigToTempFile_fail os configYaml w.files hfail
  by_cases hrun : w.tunnel_running = 0
  · cases hc : env.GetStringUTFChars_ok
    · simp [nativeStartFromString, start_guard, test_and_set, hrun, GetStringUTFChars, hc,
        World.clear_flag_of_idle w hrun]
    · simp [nativeStartFromString, start_guard, test_and_set, hrun, GetStringUTFChars, hc,
        GetStringUTFLength, hfile, World.clear_flag_of_idle w hrun]
  · simp [nativeStartFromString, start_guard, test_and_set, hrun]

/-! ## Engine invocation -/

/-- C7: a `nativeStart` entered with the flag clear whose string is extracted,
and a `nativeStartFromString` that in addition gets its scratch file, call
`hev_socks5_tunnel_main` exactly once, with `argc = 3` and
`argv = ["hev-socks5-tunnel", "-c", config_path, NULL]`, and return the
engine's exit code whatever it is.  Conversely each call either invokes the
engine once and returns its code, or invokes nothing and returns -1. -/
theorem exit_code_pass_through (eng : Engine) (env : JNIEnv) (os : Libc)
    (configPath configYaml : CStr) (tunFd : Int) (w : World) :
    (w.tunnel_running = 0 → env.GetStringUTFChars_ok = true →
      ∃ c : MainCall,
        c.argc = 3 ∧
        c.argv = [some (lit "hev-socks5-tunnel"), some (lit "-c"), some configPath, none] ∧
        (nativeStart eng env configPath tunFd w).2.main_calls = w.main_calls ++ [c] ∧
        (nativeStart eng env configPath tunFd w).1 = eng.hev_socks5_tunnel_main c) ∧
    (w.tunnel_running = 0 → env.GetStringUTFChars_ok = true →
      ∀ path : CStr,
        (writeConfigToTempFile os configYaml (GetStringUTFLength configYaml) w.files).1
          = some path →
        ∃ c : MainCall,
          c.argc = 3 ∧
          c.argv = [some (lit "hev-socks5-tunnel"), some (lit "-c"), some path, none] ∧
          (nativeStartFromString eng env os configYaml tunFd w).2.main_calls
            = w.main_calls ++ [c] ∧
          (nativeStartFromString eng env os configYaml tunFd w).1
            = eng.hev_socks5_tunnel_main c) ∧
    (((nativeStart eng env configPath tunFd w).2.main_calls = w.main_calls ∧
        (nativeStart eng env configPath tunFd w).1 = -1) ∨
      ∃ c : MainCall,
        (nativeStart eng env configPath tunFd w).2.main_calls = w.main_calls ++ [c] ∧
        (nativeStart eng env configPath tunFd w).1 = eng.hev_socks5_tunnel_main c) ∧
    (((nativeStartFromString eng env os configYaml tunFd w).2.main_calls = w.main_calls ∧
        (nativeStartFromString eng env os configYaml tunFd w).1 = -1) ∨
      ∃ c : MainCall,
        (nativeStartFromString eng env os configYaml tunFd w).2.main_calls
          = w.main_calls ++ [c] ∧
        (nativeStartFromString eng env os configYaml tunFd w).1
          = eng.hev_socks5_tunnel_main c) := by
  have key : ∀ path : CStr, w.tunnel_running = 0 → env.GetStringUTFChars_ok = true →
      (writeConfigToTempFile os configYaml (GetStringUTFLength configYaml) w.files).1
        = some path →
      ∃ c : MainCall,
        c.argc = 3 ∧
        c.argv = [some (lit "hev-socks5-tunnel"), some (lit "-c"), some path, none] ∧
        (nativeStartFromString eng env os configYaml tunFd w).2.main_calls
          = w.main_calls ++ [c] ∧
        (nativeStartFromString eng env os configYaml tunFd w).1
          = eng.hev_socks5_tunnel_main c := by
    intro path hidle hok hfile
    cases hres : writeConfigToTempFile os configYaml (GetStringUTFLength configYaml) w.files with
    | mk r fs1 =>
      rw [hres] at hfile
      simp only at hfile
      subst hfile
      refine ⟨⟨3, [some arg0, some arg1, some path, none],
        setenv TUN_FD_ENV (snprintf_d 32 tunFd) 1 w.environ, fs1⟩, rfl, rfl, ?_, ?_⟩
      · simp [nativeStartFromString, start_guard, test_and_set, hidle, GetStringUTFChars, hok, hres,
          call_main]
      · simp [nativeStartFromString, start_guard, test_and_set, hidle, GetStringUTFChars, hok, hres,
          call_main]
  refine ⟨?_, ?_, ?_, ?_⟩
  · intro hidle hok
    refine ⟨⟨3, [some arg0, some arg1, some configPath, none],
      setenv TUN_FD_ENV (snprintf_d 32 tunFd) 1 w.environ, w.files⟩, rfl, rfl, ?_, ?_⟩
    · rw [nativeStart_accepted eng env configPath tunFd w hidle hok]
    · rw [nativeStart_accepted eng env configPath tunFd w hidle hok]
  · intro hidle hok path hfile
    exact key path hidle hok hfile
  · by_cases hidle : w.tunnel_running = 0
    · cases hok : env.GetStringUTFChars_ok
      · left
        simp [nativeStart, start_guard, test_and_set, hidle, GetStringUTFChars, hok]
      · right
        refine ⟨⟨3, [some arg0, some arg1, some configPath, none],
          setenv TUN_FD_ENV (snprintf_d 32 tunFd) 1 w.environ, w.files⟩, ?_, ?_⟩
        · rw [nativeStart_accepted eng env configPath tunFd w hidle hok]
        · rw [nativeStart_accepted eng env configPath tunFd w hidle hok]
    · left
      simp [nativeStart, start_guard, test_and_set, hidle]
  · by_cases hidle : w.tunnel_running = 0
    · cases hok : env.GetStringUTFChars_ok
      · left
        simp [nativeStartFromString, start_guard, test_and_set, hidle, GetStringUTFChars, hok]
      · cases hres : writeConfigToTempFile os configYaml (GetStringUTFLength configYaml)
            w.files with
        | mk r fs1 =>
          cases r with
          | none =>
            left
            simp [nativeStartFromString, start_guard, test_and_set, hidle, GetStringUTFChars, hok, hres]
          | some path =>
            right
            obtain ⟨c, _, _, h3, h4⟩ := key path hidle hok (by rw [hres])
            exact ⟨c, h3, h4⟩
    · left
      simp [nativeStartFromString, start_guard, test_and_set, hidle]

theorem exit_code_pass_through_witness :
    (∃ c : MainCall,
        c.argc = 3 ∧
        c.argv = [some (lit "hev-socks5-tunnel"), some (lit "-c"),
                  some (lit "/sdcard/t.yml"), none] ∧
        (nativeStart engine7 jniOk (lit "/sdcard/t.yml") 42 worldIdle).2.main_calls
          = worldIdle.main_calls ++ [c] ∧
        (nativeStart engine7 jniOk (lit "/sdcard/t.yml") 42 worldIdle).1
          = engine7.hev_socks5_tunnel_main c) ∧
    (∃ c : MainCall,
        c.argc = 3 ∧
        c.argv = [some (lit "hev-socks5-tunnel"), some (lit "-c"),
                  some (lit "/data/local/tmp/hev-socks5-tunnel-abcdef"), none] ∧
        (nativeStartFromString engine7 jniOk libc3 (lit "abc") 42 worldIdle).2.main_calls
          = worldIdle.main_calls ++ [c] ∧
        (nativeStartFromString engine7 jniOk libc3 (lit "abc") 42 worldIdle).1
          = engine7.hev_socks5_tunnel_main c) :=
  ⟨(exit_code_pass_through engine7 jniOk libc3 (lit "/sdcard/t.yml") (lit "abc") 42
      worldIdle).1 (by decide) (by decide),
   (exit_code_pass_through engine7 jniOk libc3 (lit "/sdcard/t.yml") (lit "abc") 42
      worldIdle).2.1 (by decide) (by decide) _ (by decide)⟩

/-! ## Inline configuration -/

/-- C9: when `mkstemp` fails, or `write` reports a count other than the length
of the inline text, `writeConfigToTempFile` returns NULL and the file system is
what it was (a file it created is unlinked); `nativeStartFromString`, entered
with the flag clear, then returns -1 and hands back the state it was given: no
engine call, environment untouched, `tunnel_running` back to 0. -/
theorem short_write_is_failure (eng : Engine) (env : JNIEnv) (os : Libc) (config : CStr)
    (tunFd : Int) (w : World) (hidle : w.tunnel_running = 0)
    (hfail : (mkstemp os tmpFile w.files).1 = none ∨ os.write ≠ (config.length : Int)) :
    writeConfigToTempFile os config config.length w.files = (none, w.files) ∧
    nativeStartFromString eng env os config tunFd w = (-1, w) ∧
    (nativeStartFromString eng env os config tunFd w).2.tunnel_running = 0 ∧
    (nativeStartFromString eng env os config tunFd w).2.main_calls = w.main_calls ∧
    (nativeStartFromString eng env os config tunFd w).2.environ = w.environ ∧
    (nativeStartFromString eng env os config tunFd w).2.files = w.files := by
  have e := nativeStartFromString_no_file eng env os config tunFd w hfail
  refine ⟨writeConfigToTempFile_fail os config w.files hfail, e, ?_, ?_, ?_, ?_⟩
  · rw [e]; exact hidle
  · rw [e]
  · rw [e]
  · rw [e]

theorem short_write_is_failure_witness :
    worldIdle.tunnel_running = 0 ∧
    ((mkstemp libc2 tmpFile worldIdle.files).1 = none ∨
      libc2.write ≠ ((lit "abc").length : Int)) ∧
    writeConfigToTempFile libc2 (lit "abc") (lit "abc").length worldIdle.files
      = (none, worldIdle.files) ∧
    nativeStartFromString engine7 jniOk libc2 (lit "abc") 42 worldIdle = (-1, worldIdle) ∧
    (nativeStartFromString engine7 jniOk libc2 (lit "abc") 42 worldIdle).2.tunnel_running = 0 ∧
    (nativeStartFromString engine7 jniOk libc2 (lit "abc") 42 worldIdle).2.main_calls
      = worldIdle.main_calls ∧
    (nativeStartFromString engine7 jniOk libc2 (lit "abc") 42 worldIdle).2.environ
      = worldIdle.environ ∧
    (nativeStartFromString engine7 jniOk libc2 (lit "abc") 42 worldIdle).2.files
      = worldIdle.files :=
  ⟨by decide, by decide,
   short_write_is_failure engine7 jniOk libc2 (lit "abc") 42 worldIdle (by decide) (by decide)⟩

/-! ## Decimal conversion -/

theorem digit_toNat (d : Nat) (h : d < 10) : (UInt8.ofNat (48 + d)).toNat = 48 + d :=
  UInt8.toNat_ofNat_of_lt (by simp only [UInt8.size]; omega)

theorem utoa_rev_ne_nil (fuel n : Nat) : utoa_rev (fuel + 1) n ≠ [] := by
  simp [utoa_rev]

theorem utoa_rev_digits (fuel n : Nat) :
    ∀ b ∈ utoa_rev fuel n, 48 ≤ b.toNat ∧ b.toNat ≤ 57 := by
  induction fuel generalizing n with
  | zero => simp [utoa_rev]
  | succ fuel ih =>
    intro b hb
    have hd : n % 10 < 10 := Nat.mod_lt _ (by decide)
    simp only [utoa_rev, List.mem_cons] at hb
    rcases hb with rfl | hb
    · rw [digit_toNat _ hd]; omega
    · split at hb
      · cases hb
      · exact ih _ b hb

theorem utoa_rev_value (fuel n : Nat) (h : n < fuel) :
    (utoa_rev fuel n).foldr (fun b acc => 10 * acc + (b.toNat - 48)) 0 = n := by
  induction fuel generalizing n with
  | zero => omega
  | succ fuel ih =>
    have hd : n % 10 < 10 := Nat.mod_lt _ (by decide)
    simp only [utoa_rev, List.foldr_cons, digit_toNat _ hd]
    split
    · simp only [List.foldr_nil]; omega
    · rw [ih (n / 10) (by omega)]; omega

theorem utoa_rev_length (fuel n k : Nat) (h : n < 10 ^ (k + 1)) :
    (utoa_rev fuel n).length ≤ k + 1 := by
  induction fuel generalizing n k with
  | zero => simp [utoa_rev]
  | succ fuel ih =>
    simp only [utoa_rev, List.length_cons]
    split
    · simp
    · rename_i hq
      cases k with
      | zero => omega
      | succ k =>
        have hlt : n / 10 < 10 ^ (k + 1) := by
          rw [Nat.div_lt_iff_lt_mul (by decide)]
          rw [pow_succ] at h
          exact h
        have := ih (n / 10) k hlt
        omega

theorem utoa_rev_last (fuel n : Nat) (h : n < fuel)
    (h48 : (utoa_rev fuel n).getLast? = some 48) : n = 0 := by
  induction fuel generalizing n with
  | zero => omega
  | succ fuel ih =>
    have hd : n % 10 < 10 := Nat.mod_lt _ (by decide)
    simp only [utoa_rev] at h48
    split at h48
    · rename_i hq
      simp only [List.getLast?_singleton, Option.some.injEq] at h48
      have := congrArg UInt8.toNat h48
      rw [digit_toNat _ hd] at this
      have h0 : (48 : UInt8).toNat = 48 := by decide
      omega
    · rename_i hq
      have hf : n / 10 < fuel := by omega
      obtain ⟨f, rfl⟩ : ∃ f, fuel = f + 1 := ⟨fuel - 1, by omega⟩
      rw [List.getLast?_cons] at h48
      cases hl : (utoa_rev (f + 1) (n / 10)).getLast? with
      | none =>
        rw [List.getLast?_eq_none_iff] at hl
        exact absurd hl (utoa_rev_ne_nil f (n / 10))
      | some x =>
        rw [hl] at h48
        simp only [Option.getD_some, Option.some.injEq] at h48
        subst h48
        exact absurd (ih (n / 10) hf hl) hq

theorem decimal_value_reverse (l : CStr) :
    decimal_value l.reverse = l.foldr (fun b acc => 10 * acc + (b.toNat - 48)) 0 := by
  simp [decimal_value, List.foldl_reverse]

theorem utoa_isDigits (n : Nat) : IsDigits (utoa_rev (n + 1) n).reverse := by
  refine ⟨?_, ?_, ?_⟩
  · intro h
    exact utoa_rev_ne_nil n n (List.reverse_eq_nil_iff.mp h)
  · intro b hb
    exact utoa_rev_digits _ _ b (List.mem_reverse.mp hb)
  · intro h
    rw [List.head?_reverse] at h
    have h0 := utoa_rev_last (n + 1) n (by omega) h
    subst h0
    decide

theorem fmt_d_isDecimalOf (n : Int) : IsDecimalOf (fmt_d n) n := by
  unfold IsDecimalOf fmt_d
  by_cases h : n < 0
  · simp only [h, if_true, List.singleton_append, List.head?_cons, List.tail_cons, true_and]
    exact ⟨utoa_isDigits _, by rw [decimal_value_reverse, utoa_rev_value _ _ (by omega)]⟩
  · simp only [h, if_false, List.nil_append]
    exact ⟨utoa_isDigits _, by rw [decimal_value_reverse, utoa_rev_value _ _ (by omega)]⟩

theorem fmt_d_length (n : Int) (hlo : -2 ^ 31 ≤ n) (hhi : n < 2 ^ 31) :
    (fmt_d n).length ≤ 11 := by
  have hl : (utoa_rev (n.natAbs + 1) n.natAbs).length ≤ 9 + 1 :=
    utoa_rev_length _ _ 9 (by omega)
  unfold fmt_d
  split <;> simp <;> omega

theorem snprintf_d_no_truncation (n : Int) (hlo : -2 ^ 31 ≤ n) (hhi : n < 2 ^ 31) :
    snprintf_d 32 n = fmt_d n := by
  unfold snprintf_d
  exact List.take_of_length_le (by have := fmt_d_length n hlo hhi; omega)

theorem utoa_rev_fuel (f1 f2 n : Nat) (h1 : n < f1) (h2 : n < f2) :
    utoa_rev f1 n = utoa_rev f2 n := by
  induction f1 generalizing f2 n with
  | zero => omega
  | succ f1 ih =>
    obtain ⟨g, rfl⟩ : ∃ g, f2 = g + 1 := ⟨f2 - 1, by omega⟩
    simp only [utoa_rev]
    by_cases hq : n / 10 = 0
    · simp [hq]
    · simp only [hq, if_false]
      rw [ih g (n / 10) (by omega) (by omega)]

theorem decimal_value_snoc (init : CStr) (b : UInt8) :
    decimal_value (init ++ [b]) = 10 * decimal_value init + (b.toNat - 48) := by
  simp [decimal_value, List.foldl_append]

theorem foldl_digits_ge (l : CStr) (a : Nat) :
    a ≤ l.foldl (fun acc b => 10 * acc + (b.toNat - 48)) a := by
  induction l generalizing a with
  | nil => simp
  | cons b l ih =>
    simp only [List.foldl_cons]
    exact le_trans (by omega) (ih _)

theorem decimal_value_pos (b : UInt8) (l : CStr) (h : 48 < b.toNat) :
    0 < decimal_value (b :: l) := by
  have := foldl_digits_ge l (10 * 0 + (b.toNat - 48))
  simp only [decimal_value, List.foldl_cons]
  omega

theorem uint8_ofNat_toNat (b : UInt8) : UInt8.ofNat b.toNat = b := by
  apply UInt8.eq_of_val_eq
  apply Fin.ext
  simp [UInt8.ofNat, UInt8.toNat, UInt8.val]

/-- A canonical digit string is the one the conversion loop produces for its value. -/
theorem isDigits_eq_utoa (ds : CStr) (h : IsDigits ds) :
    ds = (utoa_rev (decimal_value ds + 1) (decimal_value ds)).reverse := by
  induction ds using List.reverseRecOn with
  | nil => exact absurd rfl h.1
  | append_singleton init b ih =>
    obtain ⟨_, hdig, hlead⟩ := h
    have hb := hdig b (by simp)
    have hbyte : UInt8.ofNat (48 + (b.toNat - 48)) = b := by
      have e : 48 + (b.toNat - 48) = b.toNat := by omega
      rw [e, uint8_ofNat_toNat]
    rw [decimal_value_snoc]
    have hmod : (10 * decimal_value init + (b.toNat - 48)) % 10 = b.toNat - 48 := by omega
    have hdiv : (10 * decimal_value init + (b.toNat - 48)) / 10 = decimal_value init := by omega
    simp only [utoa_rev, hmod, hdiv, hbyte]
    cases init with
    | nil => simp [decimal_value]
    | cons a rest =>
      have ha := hdig a (by simp)
      have ha48 : a ≠ 48 := by
        intro e
        subst e
        have := hlead (by simp)
        simp at this
      have hapos : 48 < a.toNat := by
        have : a.toNat ≠ 48 := fun e => ha48 (by rw [← uint8_ofNat_toNat a, e]; rfl)
        omega
      have hv : 0 < decimal_value (a :: rest) := decimal_value_pos a rest hapos
      have hinit : IsDigits (a :: rest) :=
        ⟨by simp, fun x hx => hdig x (by simp at hx ⊢; rcases hx with h | h <;> simp [h]),
         fun e => by simp at e; exact absurd e ha48⟩
      have hne : ¬ decimal_value (a :: rest) = 0 := by omega
      rw [if_neg hne, List.reverse_cons,
        utoa_rev_fuel _ (decimal_value (a :: rest) + 1) _ (by omega) (by omega), ← ih hinit]

/-- The canonical decimal string of `n` is unique: it is the `%d` output. -/
theorem isDecimalOf_unique (s : CStr) (n : Int) (h : IsDecimalOf s n) : s = fmt_d n := by
  unfold IsDecimalOf at h
  unfold fmt_d
  by_cases hn : n < 0
  · rw [if_pos hn] at h
    obtain ⟨hh, hd, hv⟩ := h
    rw [if_pos hn, ← hv, ← isDigits_eq_utoa _ hd]
    cases s with
    | nil => simp at hh
    | cons a t => simp at hh; simp [hh]
  · rw [if_neg hn] at h
    obtain ⟨hd, hv⟩ := h
    rw [if_neg hn, ← hv, ← isDigits_eq_utoa _ hd]
    simp

/-! ## Descriptor forwarding -/

/-- C6: for every 32-bit signed `tunFd`, negative values included, a start
entered with the flag clear that obtains its config (`nativeStart` with its
string extracted, `nativeStartFromString` with `writeConfigToTempFile`
returning a path as well) calls the engine with `HEV_SOCKS5_TUNNEL_TUN_FD`
bound to the canonical decimal string of `tunFd`, the only string that is one;
it has at most 11 characters, so the 32-byte buffer `tunFdEnv` holds the whole
`%d` output. -/
theorem descriptor_forwarding (eng : Engine) (env : JNIEnv) (os : Libc)
    (configPath configYaml : CStr) (tunFd : Int) (w : World)
    (hlo : -2 ^ 31 ≤ tunFd) (hhi : tunFd < 2 ^ 31)
    (hidle : w.tunnel_running = 0) (hok : env.GetStringUTFChars_ok = true) :
    ∃ v : CStr,
      IsDecimalOf v tunFd ∧
      (∀ v2 : CStr, IsDecimalOf v2 tunFd → v2 = v) ∧
      v.length ≤ 11 ∧
      snprintf_d 32 tunFd = v ∧
      (∃ c1 : MainCall,
        (nativeStart eng env configPath tunFd w).2.main_calls = w.main_calls ++ [c1] ∧
        getenv (lit "HEV_SOCKS5_TUNNEL_TUN_FD") c1.environ = some v) ∧
      (∀ path : CStr,
        (writeConfigToTempFile os configYaml (GetStringUTFLength configYaml) w.files).1
          = some path →
        ∃ c2 : MainCall,
          (nativeStartFromString eng env os configYaml tunFd w).2.main_calls
            = w.main_calls ++ [c2] ∧
          getenv (lit "HEV_SOCKS5_TUNNEL_TUN_FD") c2.environ = some v) := by
  have hs := snprintf_d_no_truncation tunFd hlo hhi
  refine ⟨fmt_d tunFd, fmt_d_isDecimalOf tunFd, fun v2 h2 => isDecimalOf_unique v2 tunFd h2,
    fmt_d_length tunFd hlo hhi, hs, ?_, ?_⟩
  · refine ⟨⟨3, [some arg0, some arg1, some configPath, none],
      setenv TUN_FD_ENV (snprintf_d 32 tunFd) 1 w.environ, w.files⟩, ?_, ?_⟩
    · rw [nativeStart_accepted eng env configPath tunFd w hidle hok]
    · rw [← hs]
      exact getenv_setenv _ _ _
  · intro path hfile
    cases hres : writeConfigToTempFile os configYaml (GetStringUTFLength configYaml) w.files with
    | mk r fs1 =>
      rw [hres] at hfile
      simp only at hfile
      subst hfile
      refine ⟨⟨3, [some arg0, some arg1, some path, none],
        setenv TUN_FD_ENV (snprintf_d 32 tunFd) 1 w.environ, fs1⟩, ?_, ?_⟩
      · rw [nativeStartFromString_with_file eng env os configYaml tunFd w path fs1 hidle hok
          hres]
      · rw [← hs]
        exact getenv_setenv _ _ _

theorem descriptor_forwarding_witness :
    (-2 ^ 31 : Int) ≤ -1 ∧ (-1 : Int) < 2 ^ 31 ∧
    worldIdle.tunnel_running = 0 ∧ jniOk.GetStringUTFChars_ok = true ∧
    (writeConfigToTempFile libc3 (lit "abc") (GetStringUTFLength (lit "abc"))
        worldIdle.files).1 = some (lit "/data/local/tmp/hev-socks5-tunnel-abcdef") ∧
    ∃ v : CStr,
      IsDecimalOf v (-1) ∧
      (∀ v2 : CStr, IsDecimalOf v2 (-1) → v2 = v) ∧
      v.length ≤ 11 ∧
      snprintf_d 32 (-1) = v ∧
      (∃ c1 : MainCall,
        (nativeStart engine7 jniOk (lit "/sdcard/t.yml") (-1) worldIdle).2.main_calls
          = worldIdle.main_calls ++ [c1] ∧
        getenv (lit "HEV_SOCKS5_TUNNEL_TUN_FD") c1.environ = some v) ∧
      (∃ c2 : MainCall,
        (nativeStartFromString engine7 jniOk libc3 (lit "abc") (-1) worldIdle).2.main_calls
          = worldIdle.main_calls ++ [c2] ∧
        getenv (lit "HEV_SOCKS5_TUNNEL_TUN_FD") c2.environ = some v) := by
  obtain ⟨v, h1, h2, h3, h4, h5, h6⟩ :=
    descriptor_forwarding engine7 jniOk libc3 (lit "/sdcard/t.yml") (lit "abc") (-1) worldIdle
      (by decide) (by decide) (by decide) (by decide)
  exact ⟨by decide, by decide, by decide, by decide, by decide,
    v, h1, h2, h3, h4, h5, h6 (lit "/data/local/tmp/hev-socks5-tunnel-abcdef") (by decide)⟩

/-- The `%d` output at the ends of the `jint` range and at zero, and the value
the engine finds in its environment for the descriptors -1 and -2147483648. -/
theorem fmt_d_examples :
    fmt_d (-2147483648) = lit "-2147483648" ∧
    fmt_d 2147483647 = lit "2147483647" ∧
    fmt_d 0 = lit "0" ∧
    ((nativeStart engine7 jniOk (lit "/sdcard/t.yml") (-1) worldIdle).2.main_calls.map
      (fun c => getenv TUN_FD_ENV c.environ)) = [some (lit "-1")] ∧
    ((nativeStartFromString engine7 jniOk libc3 (lit "abc") (-2147483648)
        worldIdle).2.main_calls.map
      (fun c => getenv TUN_FD_ENV c.environ)) = [some (lit "-2147483648")] := by
  decide

/-! ## Mutual exclusion of start -/

/-- The invariant of the interleaving: a call that holds the flag finds it set,
and no two calls hold it. -/
theorem step_preserves (t : Nat) (o : Outcome) (s : Sys)
    (hflag : ∀ i, (s.pc i).holds = true → s.tunnel_running ≠ 0)
    (huniq : ∀ i j, (s.pc i).holds = true → (s.pc j).holds = true → i = j) :
    (∀ i, ((step t o s).pc i).holds = true → (step t o s).tunnel_running ≠ 0) ∧
    (∀ i j, ((step t o s).pc i).holds = true → ((step t o s).pc j).holds = true → i = j) := by
  have upd : ∀ (v : Pc) (i : Nat), i ≠ t → Function.update s.pc t v i = s.pc i :=
    fun v i hi => Function.update_noteq hi v s.pc
  have same : ∀ v : Pc, Function.update s.pc t v t = v := fun v => Function.update_same t v s.pc
  -- the step replaces the position of `t` by one that does not hold, clearing or keeping the flag
  have drop : ∀ (v : Pc) (f : Int), v.holds = false →
      ((s.pc t).holds = true ∨ f = s.tunnel_running) →
      (∀ i, (Function.update s.pc t v i).holds = true → f ≠ 0) ∧
      (∀ i j, (Function.update s.pc t v i).holds = true →
        (Function.update s.pc t v j).holds = true → i = j) := by
    intro v f hv hf
    have old : ∀ i, (Function.update s.pc t v i).holds = true → i ≠ t ∧ (s.pc i).holds = true := by
      intro i hi
      by_cases e : i = t
      · subst e; rw [same, hv] at hi; cases hi
      · rw [upd v i e] at hi; exact ⟨e, hi⟩
    refine ⟨?_, ?_⟩
    · intro i hi
      obtain ⟨e, h⟩ := old i hi
      rcases hf with ht | rfl
      · exact absurd (huniq i t h ht) e
      · exact hflag i h
    · intro i j hi hj
      exact huniq i j (old i hi).2 (old j hj).2
  -- the step moves `t` between two positions that both hold, flag untouched
  have keep : ∀ v : Pc, (s.pc t).holds = true →
      (∀ i, (Function.update s.pc t v i).holds = true → s.tunnel_running ≠ 0) ∧
      (∀ i j, (Function.update s.pc t v i).holds = true →
        (Function.update s.pc t v j).holds = true → i = j) := by
    intro v ht
    have old : ∀ i, (Function.update s.pc t v i).holds = true → (s.pc i).holds = true := by
      intro i hi
      by_cases e : i = t
      · subst e; exact ht
      · rw [upd v i e] at hi; exact hi
    exact ⟨fun i hi => hflag i (old i hi), fun i j hi hj => huniq i j (old i hi) (old j hj)⟩
  unfold step
  cases hp : s.pc t with
  | entry =>
    simp only
    by_cases hr : s.tunnel_running = 0
    · simp only [test_and_set, hr, ne_eq, not_true_eq_false, if_false]
      have none_holds : ∀ i, (s.pc i).holds = true → False := fun i hi => hflag i hi hr
      have only : ∀ i, (Function.update s.pc t Pc.guarded i).holds = true → i = t := by
        intro i hi
        by_contra e
        rw [upd _ i e] at hi
        exact none_holds i hi
      exact ⟨fun _ _ => by decide, fun i j hi hj => (only i hi).trans (only j hj).symm⟩
    · have hr2 : s.tunnel_running ≠ 0 := hr
      simp only [test_and_set, if_pos hr2]
      exact drop (.returned (-1)) s.tunnel_running rfl (Or.inr rfl)
  | guarded =>
    simp only
    have ht : (s.pc t).holds = true := by rw [hp]; rfl
    cases o.config_ok
    · simp only [Bool.false_eq_true, if_false]
      exact drop (.returned (-1)) 0 rfl (Or.inl ht)
    · simp only [if_true]
      exact keep .engine ht
  | engine =>
    simp only
    exact keep (.leaving o.exit_code) (by rw [hp]; rfl)
  | leaving r =>
    simp only
    exact drop (.returned r) 0 rfl (Or.inl (by rw [hp]; rfl))
  | returned r =>
    simp only
    exact ⟨hflag, huniq⟩

theorem run_append (a b : List (Nat × Outcome)) (s : Sys) :
    run (a ++ b) s = run b (run a s) := by
  simp [run, List.foldl_append]

theorem run_invariant (sched : List (Nat × Outcome)) :
    (∀ i, ((run sched Sys.init).pc i).holds = true → (run sched Sys.init).tunnel_running ≠ 0) ∧
    (∀ i j, ((run sched Sys.init).pc i).holds = true →
      ((run sched Sys.init).pc j).holds = true → i = j) := by
  induction sched using List.reverseRecOn with
  | nil =>
    refine ⟨?_, ?_⟩
    · intro i hi; simp [run, Sys.init, Pc.holds] at hi
    · intro i j hi; simp [run, Sys.init, Pc.holds] at hi
  | append_singleton sched x ih =>
    rw [run_append]
    exact step_preserves x.1 x.2 _ ih.1 ih.2

/-- A start call run alone in the step machine ends where `nativeStart` does:
same flag, same return value. -/
theorem run_alone_nativeStart (eng : Engine) (env : JNIEnv) (configPath : CStr) (tunFd : Int)
    (w : World) (t : Nat) (o : Outcome)
    (hc : o.config_ok = env.GetStringUTFChars_ok)
    (he : o.exit_code = eng.hev_socks5_tunnel_main
      ⟨3, [some arg0, some arg1, some configPath, none],
       setenv TUN_FD_ENV (snprintf_d 32 tunFd) 1 w.environ, w.files⟩) :
    (run [(t, o), (t, o), (t, o), (t, o)] ⟨w.tunnel_running, fun _ => Pc.entry⟩).tunnel_running
      = (nativeStart eng env configPath tunFd w).2.tunnel_running ∧
    (run [(t, o), (t, o), (t, o), (t, o)] ⟨w.tunnel_running, fun _ => Pc.entry⟩).pc t
      = Pc.returned (nativeStart eng env configPath tunFd w).1 := by
  by_cases hidle : w.tunnel_running = 0
  · cases hok : env.GetStringUTFChars_ok
    · rw [hok] at hc
      simp [run, step, test_and_set, hidle, hc, nativeStart, start_guard, GetStringUTFChars, hok]
    · rw [hok] at hc
      rw [nativeStart_accepted eng env configPath tunFd w hidle hok]
      simp [run, step, test_and_set, hidle, hc, he]
  · have hr : w.tunnel_running ≠ 0 := hidle
    simp [run, step, test_and_set, hr, nativeStart, start_guard]

/-- A start call run alone in the step machine ends where
`nativeStartFromString` does: same flag, same return value. -/
theorem run_alone_nativeStartFromString (eng : Engine) (env : JNIEnv) (os : Libc)
    (configYaml : CStr) (tunFd : Int) (w : World) (t : Nat) (o : Outcome)
    (hc : o.config_ok = (env.GetStringUTFChars_ok &&
      (writeConfigToTempFile os configYaml (GetStringUTFLength configYaml) w.files).1.isSome))
    (he : o.config_ok = true →
      o.exit_code = (nativeStartFromString eng env os configYaml tunFd w).1) :
    (run [(t, o), (t, o), (t, o), (t, o)] ⟨w.tunnel_running, fun _ => Pc.entry⟩).tunnel_running
      = (nativeStartFromString eng env os configYaml tunFd w).2.tunnel_running ∧
    (run [(t, o), (t, o), (t, o), (t, o)] ⟨w.tunnel_running, fun _ => Pc.entry⟩).pc t
      = Pc.returned (nativeStartFromString eng env os configYaml tunFd w).1 := by
  by_cases hidle : w.tunnel_running = 0
  · have hflag : (nativeStartFromString eng env os configYaml tunFd w).2.tunnel_running = 0 := by
      simp only [nativeStartFromString, start_guard_idle w hidle, GetStringUTFChars, call_main]
      cases env.GetStringUTFChars_ok
      · simp
      · simp only [ite_true]
        split <;> simp
    cases hcfg : o.config_ok
    · have hret : (nativeStartFromString eng env os configYaml tunFd w).1 = -1 := by
        rw [hcfg] at hc
        cases hok : env.GetStringUTFChars_ok
        · simp [nativeStartFromString, start_guard_idle w hidle, GetStringUTFChars, hok]
        · rw [hok] at hc
          cases hres : writeConfigToTempFile os configYaml (GetStringUTFLength configYaml)
              w.files with
          | mk r fs1 =>
            rw [hres] at hc
            cases r with
            | some p => simp at hc
            | none =>
              rw [nativeStartFromString_null_file eng env os configYaml tunFd w fs1 hidle hok
                hres]
      rw [hflag, hret]
      simp [run, step, test_and_set, hidle, hcfg]
    · have hx := he hcfg
      rw [hflag, ← hx]
      simp [run, step, test_and_set, hidle, hcfg]
  · have hr : w.tunnel_running ≠ 0 := hidle
    simp [run, step, test_and_set, hr, nativeStartFromString, start_guard]

/-- C3: from the load-time state, after any interleaving of the steps of any
number of start calls, at most one call stands between its successful set of
`tunnel_running` and its clearing of it (so at most one is inside the engine),
and while such a call exists every other call that takes the guard step
returns -1 without changing the flag or any other call. -/
theorem start_mutual_exclusion (sched : List (Nat × Outcome)) :
    (∀ i j, ((run sched Sys.init).pc i).holds = true →
      ((run sched Sys.init).pc j).holds = true → i = j) ∧
    (∀ i j, (run sched Sys.init).pc i = Pc.engine →
      (run sched Sys.init).pc j = Pc.engine → i = j) ∧
    (∀ i j o, ((run sched Sys.init).pc i).holds = true →
      (run sched Sys.init).pc j = Pc.entry →
      (step j o (run sched Sys.init)).pc j = Pc.returned (-1) ∧
      (step j o (run sched Sys.init)).tunnel_running = (run sched Sys.init).tunnel_running ∧
      ∀ k, k ≠ j → (step j o (run sched Sys.init)).pc k = (run sched Sys.init).pc k) := by
  obtain ⟨hflag, huniq⟩ := run_invariant sched
  refine ⟨huniq, ?_, ?_⟩
  · intro i j hi hj
    exact huniq i j (by rw [hi]; rfl) (by rw [hj]; rfl)
  · intro i j o hi hj
    have hr := hflag i hi
    simp only [step, hj, test_and_set, ne_eq, hr, not_false_eq_true, if_true,
      Function.update_same, true_and]
    intro k hk
    exact Function.update_noteq hk _ _

/-- The race of the specification: threads 0 and 1 start together, thread 0
wins and runs the engine, thread 1 is rejected with -1; once the engine has
returned 0 and thread 0 has left, the start of thread 2 passes the guard. -/
theorem concurrent_start_race :
    (run [(0, ⟨true, 0⟩), (1, ⟨true, 0⟩), (0, ⟨true, 0⟩)] Sys.init).pc 0 = Pc.engine ∧
    (run [(0, ⟨true, 0⟩), (1, ⟨true, 0⟩), (0, ⟨true, 0⟩)] Sys.init).pc 1 = Pc.returned (-1) ∧
    (run [(0, ⟨true, 0⟩), (1, ⟨true, 0⟩), (0, ⟨true, 0⟩), (0, ⟨true, 0⟩), (0, ⟨true, 0⟩),
          (2, ⟨true, 0⟩)] Sys.init).pc 0 = Pc.returned 0 ∧
    (run [(0, ⟨true, 0⟩), (1, ⟨true, 0⟩), (0, ⟨true, 0⟩), (0, ⟨true, 0⟩), (0, ⟨true, 0⟩),
          (2, ⟨true, 0⟩)] Sys.init).pc 2 = Pc.guarded := by
  decide


end HevJni
